import Mathlib

/-!
Shallow embedding of `websocket_recorder.py` (class `WebsocketRecorder`).

The recorder receives websocket messages, expands each into a "full message"
dictionary, serializes it as one JSON line with sorted keys, and appends it to
a data file whose name embeds the date at open time.  Wall-clock reads
(`datetime.datetime.now()`) are modelled as explicit `DateTime` arguments, the
process id as an explicit `Nat` argument, and the data file as an explicit
record of its name, the lines written to it, and whether it is open.

Python dictionaries with string keys are modelled as association lists with
in-place update (`setKey`): assigning to an existing key replaces its value and
keeps its position, assigning to a fresh key appends it, exactly like the
insertion-order semantics of `dict`.
-/

/-- A JSON value as it occurs in the recorder's `full_message` dictionary:
the values are strings, integers, or `None` (the construction-time
placeholders in the template). -/
inductive JVal where
  | jstr : String → JVal
  | jnum : Nat → JVal
  | jnull : JVal
deriving Repr, DecidableEq

/-- The recorder's dictionaries: association lists of string keys. -/
abbrev Dict := List (String × JVal)

/-- `d[k] = v` on a Python dict: replace in place if the key is present
(keeping its position), append otherwise. -/
def setKey : Dict → String → JVal → Dict
  | [], k, v => [(k, v)]
  | (k', v') :: rest, k, v =>
    if k' = k then (k', v) :: rest else (k', v') :: setKey rest k v

/-- Key lookup in a dict (first occurrence). -/
def lookupKey (k : String) : Dict → Option JVal
  | [] => none
  | (k', v) :: rest => if k' = k then some v else lookupKey k rest

/-- `d.update(extra)` on Python dicts: assign every pair of `extra` in order. -/
def updateMany (d : Dict) (extra : Dict) : Dict :=
  extra.foldl (fun acc kv => setKey acc kv.1 kv.2) d

/-- The sixteen lower-case hexadecimal digit characters; indices below ten are
also the decimal digit characters. -/
def hexDig (n : Nat) : Char :=
  "0123456789abcdef".data.getD n '0'

/-- Fueled digit extraction (structural recursion so that it computes by
reduction; any fuel above the value itself is enough). -/
def natDigsF : Nat → Nat → List Char
  | 0, _ => []
  | fuel + 1, n =>
    if n < 10 then [hexDig n]
    else natDigsF fuel (n / 10) ++ [hexDig (n % 10)]

/-- Decimal digit string of a natural number, as Python's `str(n)` renders a
non-negative `int` (most significant digit first, no leading zeros, `0` for
zero). -/
def natDigs (n : Nat) : List Char := natDigsF (n + 1) n

theorem natDigsF_irrel :
    ∀ f1 f2 n, n < f1 → n < f2 → natDigsF f1 n = natDigsF f2 n := by
  intro f1
  induction f1 with
  | zero => intro f2 n h1; omega
  | succ g1 ih =>
    intro f2 n h1 h2
    cases f2 with
    | zero => omega
    | succ g2 =>
      by_cases h : n < 10
      · simp [natDigsF, h]
      · have hd : n / 10 < n := Nat.div_lt_self (by omega) (by omega)
        simp only [natDigsF, if_neg h]
        rw [ih g2 (n / 10) (by omega) (by omega)]

/-- The recursion equation `natDigs` satisfies. -/
theorem natDigs_eq (n : Nat) :
    natDigs n = if n < 10 then [hexDig n] else natDigs (n / 10) ++ [hexDig (n % 10)] := by
  by_cases h : n < 10
  · simp [natDigs, natDigsF, h]
  · have hd : n / 10 < n := Nat.div_lt_self (by omega) (by omega)
    show natDigsF (n + 1) n = _
    rw [natDigsF, if_neg h]
    unfold natDigs
    rw [natDigsF_irrel n (n / 10 + 1) (n / 10) (by omega) (by omega), if_neg h]

/-- Zero-pad the decimal rendering of `n` on the left to width `w`, as
`strftime`'s `%Y`/`%m`/`%d`/`%H`/`%M`/`%S`/`%f` directives do. -/
def padNum (w n : Nat) : List Char :=
  List.replicate (w - (natDigs n).length) '0' ++ natDigs n

/-- A wall-clock reading, standing in for `datetime.datetime.now()`. -/
structure DateTime where
  year : Nat
  month : Nat
  day : Nat
  hour : Nat
  minute : Nat
  second : Nat
  microsecond : Nat
deriving Repr, DecidableEq

/-- `now.strftime("%Y-%m-%d")`. -/
def formatDate (t : DateTime) : String :=
  String.mk (padNum 4 t.year ++ '-' :: padNum 2 t.month ++ '-' :: padNum 2 t.day)

/-- `now.strftime("%Y-%m-%d %H:%M:%S.%f UTC")`. -/
def formatTs (t : DateTime) : String :=
  formatDate t ++
    String.mk (' ' :: padNum 2 t.hour ++ ':' :: padNum 2 t.minute ++
      ':' :: padNum 2 t.second ++ '.' :: padNum 6 t.microsecond) ++ " UTC"

/-- Python slice `s[0:n]` on a string. -/
def pyTake (s : String) (n : Nat) : String :=
  String.mk (s.data.take n)

/-- `os.path.basename(p)` on POSIX: everything after the last slash. -/
def pyBasename (p : String) : String :=
  String.mk ((p.data.reverse.takeWhile (fun c => c ≠ '/')).reverse)

/-- Does `l` start with `pre`? (Helper for `pyReplaceL`.) -/
def leadsWith : List Char → List Char → Bool
  | [], _ => true
  | _ :: _, [] => false
  | a :: as, b :: bs => a == b && leadsWith as bs

theorem leadsWith_length {pre l : List Char} (h : leadsWith pre l = true) :
    pre.length ≤ l.length := by
  induction pre generalizing l with
  | nil => simp
  | cons a as ih =>
    cases l with
    | nil => simp [leadsWith] at h
    | cons b bs =>
      simp only [leadsWith, Bool.and_eq_true] at h
      simpa [Nat.succ_le_succ_iff] using ih h.2

/-- Fueled core of Python `s.replace(old, new)` on character lists, replacing
non-overlapping occurrences left to right (every step consumes at least one
character, so any fuel above the input length is enough). -/
def pyReplaceF : Nat → List Char → List Char → List Char → List Char
  | 0, _, _, s => s
  | fuel + 1, old, new, s =>
    match s with
    | [] => []
    | c :: rest =>
      if old ≠ [] ∧ leadsWith old (c :: rest) = true then
        new ++ pyReplaceF fuel old new ((c :: rest).drop old.length)
      else
        c :: pyReplaceF fuel old new rest

/-- Python `s.replace(old, new)` on character lists.  (Call sites only use a
non-empty `old`; for an empty `old` Python would interleave `new` between
characters, a case that cannot arise here.) -/
def pyReplaceL (old new s : List Char) : List Char :=
  pyReplaceF (s.length + 1) old new s

/-- Python `s.replace(old, new)` on strings. -/
def pyReplace (s old new : String) : String :=
  String.mk (pyReplaceL old.data new.data s.data)

/-!
### JSON serialization, `json.dumps(d, sort_keys=True)`

The default `json.dumps` emits `", "` and `": "` separators, sorts keys by
Python string order (code-point lexicographic), and with the default
`ensure_ascii=True` escapes `"` and `\` with short escapes, the control
characters `\b \f \n \r \t` with their short escapes, every other character
outside `0x20`–`0x7e` with `\uXXXX` (using lower-case hex digits and UTF-16
surrogate pairs above `0xffff`), and leaves everything else verbatim.
-/

/-- Code-point lexicographic order on character lists, matching Python's
string comparison. -/
def lexLe : List Char → List Char → Bool
  | [], _ => true
  | _ :: _, [] => false
  | a :: as, b :: bs =>
    if a.toNat < b.toNat then true
    else if b.toNat < a.toNat then false
    else lexLe as bs

/-- Key order used by `sort_keys=True`. -/
def keyRel (p q : String × JVal) : Prop := lexLe p.1.data q.1.data = true

instance : DecidableRel keyRel := fun p q => instDecidableEqBool _ _

theorem lexLe_total : ∀ as bs, lexLe as bs = true ∨ lexLe bs as = true := by
  intro as
  induction as with
  | nil => intro bs; left; rfl
  | cons a as ih =>
    intro bs
    cases bs with
    | nil => right; rfl
    | cons b bs =>
      by_cases h1 : a.toNat < b.toNat
      · left; simp [lexLe, h1]
      · by_cases h2 : b.toNat < a.toNat
        · right; simp [lexLe, h2]
        · rcases ih bs with h | h
          · left; simp [lexLe, h1, h2, h]
          · right; simp [lexLe, h1, h2, h]

theorem lexLe_trans :
    ∀ as bs cs, lexLe as bs = true → lexLe bs cs = true → lexLe as cs = true := by
  intro as
  induction as with
  | nil => intro bs cs _ _; rfl
  | cons a as ih =>
    intro bs cs h1 h2
    cases bs with
    | nil => simp [lexLe] at h1
    | cons b bs =>
      cases cs with
      | nil => simp [lexLe] at h2
      | cons c cs =>
        simp only [lexLe] at h1 h2 ⊢
        by_cases hab : a.toNat < b.toNat
        · by_cases hbc : b.toNat < c.toNat
          · simp [show a.toNat < c.toNat by omega]
          · by_cases hcb : c.toNat < b.toNat
            · simp [hbc, hcb] at h2
            · simp [show a.toNat < c.toNat by omega]
        · by_cases hba : b.toNat < a.toNat
          · simp [hab, hba] at h1
          · by_cases hbc : b.toNat < c.toNat
            · simp [show a.toNat < c.toNat by omega]
            · by_cases hcb : c.toNat < b.toNat
              · simp [hbc, hcb] at h2
              · have hac : ¬ a.toNat < c.toNat := by omega
                have hca : ¬ c.toNat < a.toNat := by omega
                simp only [hab, hba, if_neg, if_false] at h1
                simp only [hbc, hcb, if_neg, if_false] at h2
                simp [hac, hca, ih bs cs h1 h2]

instance : IsTotal (String × JVal) keyRel := ⟨fun p q => lexLe_total p.1.data q.1.data⟩

instance : IsTrans (String × JVal) keyRel :=
  ⟨fun _ _ _ h1 h2 => lexLe_trans _ _ _ h1 h2⟩

/-- `sorted(d.items())` by key; the recorder's dicts have pairwise distinct
keys, so any correct (stable) sort produces the list `json.dumps` iterates
over. -/
def sortKvs (d : Dict) : Dict := List.insertionSort keyRel d

/-- `\uXXXX` escape (lower-case hex) for a code unit below `0x10000`. -/
def uEsc (n : Nat) : List Char :=
  ['\\', 'u', hexDig (n / 4096 % 16), hexDig (n / 256 % 16),
   hexDig (n / 16 % 16), hexDig (n % 16)]

/-- The escape `json.dumps` (with `ensure_ascii=True`) applies to one
character of a string. -/
def escChar (c : Char) : List Char :=
  if c = '\\' then ['\\', '\\']
  else if c = '"' then ['\\', '"']
  else if c = '\x08' then ['\\', 'b']
  else if c = '\x0c' then ['\\', 'f']
  else if c = '\n' then ['\\', 'n']
  else if c = '\x0d' then ['\\', 'r']
  else if c = '\t' then ['\\', 't']
  else if c.toNat < 0x20 ∨ 0x7e < c.toNat then
    if c.toNat < 0x10000 then uEsc c.toNat
    else uEsc (0xd800 + (c.toNat - 0x10000) / 0x400) ++
         uEsc (0xdc00 + (c.toNat - 0x10000) % 0x400)
  else [c]

/-- Escaped body of a JSON string. -/
def escStr (s : List Char) : List Char := s.flatMap escChar

/-- A JSON string literal: quote, escaped body, quote. -/
def serStr (s : List Char) : List Char := '"' :: escStr s ++ ['"']

/-- Serialization of one value. -/
def serVal : JVal → List Char
  | .jstr s => serStr s.data
  | .jnum n => natDigs n
  | .jnull => ['n', 'u', 'l', 'l']

/-- The members of a JSON object (already in key order), `", "`-separated,
with the closing brace. -/
def serMembers : Dict → List Char
  | [] => ['}']
  | [(k, v)] => serStr k.data ++ ':' :: ' ' :: serVal v ++ ['}']
  | (k, v) :: rest => serStr k.data ++ ':' :: ' ' :: serVal v ++ ',' :: ' ' :: serMembers rest

/-- `json.dumps(d, sort_keys=True)` as a character list. -/
def serObjData (d : Dict) : List Char := '{' :: serMembers (sortKvs d)

/-- `json.dumps(d, sort_keys=True)`. -/
def serializeObj (d : Dict) : String := String.mk (serObjData d)

/-- `json.dumps(d, sort_keys=True) + "\n"`: the exact data handed to one
`self.data_file.write(...)` call. -/
def serializeLine (d : Dict) : String := serializeObj d ++ "\n"

/-!
### The recorder

`WebsocketRecorder.__init__` stores the configuration, opens the data file at
the name generated for the current date, initializes `lines_counter = 0` and
`msg_seq_no = 0`, builds the `full_message` template dict (in source order)
and merges `extra_data` into it.

`received_message` mutates the three per-record keys, then compares
`full_message['ts_utc'][0:10]` (the timestamp it just stored) with
`os.path.basename(self.data_file.name)[0:10]`.  On a match it appends one
serialized line to the data file.  Otherwise it closes the data file and then
evaluates `current_path.replace(".open")` — a call of `str.replace` with a
single argument, which raises `TypeError` in Python, so the rename, the
reopening, and the write never execute; the mutated object state (incremented
counter, closed file) survives the raise.

`closed` merely closes the file handle.
-/

/-- An open(ed) data file: its on-disk name, the strings written to it (one
per `write` call), and whether the handle is still open. -/
structure FileState where
  name : String
  lines : List String
  isOpen : Bool
deriving Repr, DecidableEq

/-- The mutable attributes of a `WebsocketRecorder` object, plus a `recs`
ledger holding each record dict at the moment it was written (the structured
view of the lines written during the session). -/
structure RecorderState where
  url : String
  initial_msg_out : List String
  data_file_lines : Nat
  lines_counter : Nat
  ws_name : String
  hostname : String
  data_dir : String
  data_file : FileState
  msg_seq_no : Nat
  full_message : Dict
  recs : List Dict
deriving Repr, DecidableEq

/-- `WebsocketRecorder.generate_filename`, as a function of the attributes it
reads and of `datetime.datetime.now()`. -/
def generate_filename (data_dir ws_name hostname : String) (now : DateTime) : String :=
  data_dir ++ "/" ++ formatDate now ++ "_" ++ ws_name ++ "_" ++ hostname ++ ".json.open"

/-- The dict literal assigned to `self.full_message` in `__init__`, in source
order, before `extra_data` is merged. -/
def templateLiteral (url hostname ws_name : String) (pid : Nat) (now0 : DateTime) : Dict :=
  [("msg_seq_no", JVal.jnull),
   ("url", JVal.jstr url),
   ("machine_id", JVal.jstr hostname),
   ("pid", JVal.jstr (String.mk (natDigs pid))),
   ("ws_name", JVal.jstr ws_name),
   ("session_start", JVal.jstr (formatTs now0)),
   ("ts_utc", JVal.jnull),
   ("websocket_msg", JVal.jnull)]

/-- `WebsocketRecorder.__init__`.  `pid` stands for `os.getpid()` and `now0`
for the `datetime.datetime.now()` readings taken during construction (the file
is opened in append mode; we model a fresh file, so no pre-existing lines).
`hb_seconds` is only forwarded to the websocket client base class. -/
def init (data_dir url : String) (initial_msg_out : List String)
    (data_file_lines : Nat) (hostname ws_name : String) (_hb_seconds : Nat)
    (extra_data : Dict) (pid : Nat) (now0 : DateTime) : RecorderState :=
  { url := url
    initial_msg_out := initial_msg_out
    data_file_lines := data_file_lines
    lines_counter := 0
    ws_name := ws_name
    hostname := hostname
    data_dir := data_dir
    data_file :=
      { name := generate_filename data_dir ws_name hostname now0
        lines := []
        isOpen := true }
    msg_seq_no := 0
    full_message := updateMany (templateLiteral url hostname ws_name pid now0) extra_data
    recs := [] }

/-- The `full_message` dict after the three per-record assignments at the top
of `received_message` (sequence number from `get_msg_seq_no`, fresh `ts_utc`,
newline-stripped payload). -/
def nextRecord (now : DateTime) (websocket_msg : String) (st : RecorderState) : Dict :=
  setKey
    (setKey
      (setKey st.full_message "msg_seq_no" (JVal.jnum (st.msg_seq_no + 1)))
      "ts_utc" (JVal.jstr (formatTs now)))
    "websocket_msg" (JVal.jstr (pyReplace websocket_msg "\n" ""))

/-- The successor state in the matching-prefix branch of `received_message`:
one serialized line appended to the current data file. -/
def writeState (now : DateTime) (websocket_msg : String) (st : RecorderState) : RecorderState :=
  { st with
    msg_seq_no := st.msg_seq_no + 1
    full_message := nextRecord now websocket_msg st
    data_file := { st.data_file with
      lines := st.data_file.lines ++ [serializeLine (nextRecord now websocket_msg st)] }
    recs := st.recs ++ [nextRecord now websocket_msg st] }

/-- The object state left behind by the differing-prefix branch: the data file
has been closed, and then `current_path.replace(".open")` raised `TypeError`
before `os.rename`, `open` or `write` could run.  The file keeps its name (no
rename) and its lines (no write). -/
def crashState (now : DateTime) (websocket_msg : String) (st : RecorderState) : RecorderState :=
  { st with
    msg_seq_no := st.msg_seq_no + 1
    full_message := nextRecord now websocket_msg st
    data_file := { st.data_file with isOpen := false } }

/-- The error raised by `current_path.replace(".open")`: `str.replace`
requires both `old` and `new`. -/
def typeErrMsg : String := "TypeError: replace expected at least 2 arguments, got 1"

/-- `WebsocketRecorder.received_message`, as a state transformer.  The result
pairs the recorder object's state after the call with `none` on normal return
or `some e` when the call raised `e`.  The condition is the source's
comparison `self.full_message['ts_utc'][0:10] ==
os.path.basename(self.data_file.name)[0:10]`; `full_message['ts_utc']` was
assigned `formatTs now` two lines earlier, so it is inlined here. -/
def received_message (now : DateTime) (websocket_msg : String) (st : RecorderState) :
    RecorderState × Option String :=
  if pyTake (formatTs now) 10 = pyTake (pyBasename st.data_file.name) 10 then
    (writeState now websocket_msg st, none)
  else
    (crashState now websocket_msg st, some typeErrMsg)

/-- `WebsocketRecorder.closed`: close the data file handle; nothing else. -/
def closed (_code : Nat) (_reason : String) (st : RecorderState) : RecorderState :=
  { st with data_file := { st.data_file with isOpen := false } }

/-- Deliver a list of timed messages to the recorder, one
`received_message` call each, stopping at the first raised exception (which
tears down the websocket client's reader): final state plus the exception, if
any. -/
def runEvents (st : RecorderState) : List (DateTime × String) → RecorderState × Option String
  | [] => (st, none)
  | (t, m) :: es =>
    match received_message t m st with
    | (st', none) => runEvents st' es
    | (st', some e) => (st', some e)

/-!
### A JSON line parser

Modelled from the spec: the source only ever serializes (`json.dumps`); the
spec's round-trip property ("every written line parses as valid structured
data whose sorted-key serialization is byte-identical to re-serializing the
parsed record") needs a parser for the written format.  `parseRecordLine`
accepts exactly the compact one-line object format the writer emits: `{`,
`", "`-separated `"key": value` members with the escapes of `escChar`
(including surrogate-pair `\uXXXX` escapes), string / non-negative integer /
`null` values, `}`, and a final newline. -/

/-- Value of one hexadecimal digit character (lower case), if any. -/
def hexVal (c : Char) : Option Nat :=
  if '0' ≤ c ∧ c ≤ '9' then some (c.toNat - 48)
  else if 'a' ≤ c ∧ c ≤ 'f' then some (c.toNat - 87)
  else none

/-- Value of a four-hex-digit group. -/
def hex4 (d1 d2 d3 d4 : Char) : Option Nat :=
  match hexVal d1, hexVal d2, hexVal d3, hexVal d4 with
  | some v1, some v2, some v3, some v4 => some (((v1 * 16 + v2) * 16 + v3) * 16 + v4)
  | _, _, _, _ => none

/-- Is `c` a decimal digit? -/
def isDig (c : Char) : Bool :=
  decide ('0' ≤ c) && decide (c ≤ '9')

/-- Parse a non-empty run of decimal digits as a natural number; returns the
value and the rest of the input. -/
def parseNat (l : List Char) : Option (Nat × List Char) :=
  let ds := l.takeWhile isDig
  if ds.isEmpty then none
  else some (ds.foldl (fun a c => a * 10 + (c.toNat - 48)) 0, l.drop ds.length)

/-- Fuel-indexed parser for the body of a JSON string literal (everything
after the opening quote, up to and including the closing quote).  Yields the
decoded characters and the input after the closing quote. -/
def parseStrBodyF : Nat → List Char → Option (List Char × List Char)
  | 0, _ => none
  | _ + 1, [] => none
  | fuel + 1, c :: rest =>
    if c = '"' then some ([], rest)
    else if c = '\\' then
      match rest with
      | [] => none
      | e :: rest2 =>
        if e = '"' then (parseStrBodyF fuel rest2).map (fun p => ('"' :: p.1, p.2))
        else if e = '\\' then (parseStrBodyF fuel rest2).map (fun p => ('\\' :: p.1, p.2))
        else if e = '/' then (parseStrBodyF fuel rest2).map (fun p => ('/' :: p.1, p.2))
        else if e = 'b' then (parseStrBodyF fuel rest2).map (fun p => ('\x08' :: p.1, p.2))
        else if e = 'f' then (parseStrBodyF fuel rest2).map (fun p => ('\x0c' :: p.1, p.2))
        else if e = 'n' then (parseStrBodyF fuel rest2).map (fun p => ('\n' :: p.1, p.2))
        else if e = 'r' then (parseStrBodyF fuel rest2).map (fun p => ('\x0d' :: p.1, p.2))
        else if e = 't' then (parseStrBodyF fuel rest2).map (fun p => ('\t' :: p.1, p.2))
        else if e = 'u' then
          match rest2 with
          | d1 :: d2 :: d3 :: d4 :: rest3 =>
            match hex4 d1 d2 d3 d4 with
            | none => none
            | some code =>
              if code < 0xd800 ∨ 0xdfff < code then
                (parseStrBodyF fuel rest3).map (fun p => (Char.ofNat code :: p.1, p.2))
              else if code < 0xdc00 then
                match rest3 with
                | '\\' :: 'u' :: e1 :: e2 :: e3 :: e4 :: rest4 =>
                  match hex4 e1 e2 e3 e4 with
                  | none => none
                  | some low =>
                    if 0xdbff < low ∧ low < 0xe000 then
                      (parseStrBodyF fuel rest4).map
                        (fun p =>
                          (Char.ofNat (0x10000 + (code - 0xd800) * 0x400 + (low - 0xdc00))
                            :: p.1, p.2))
                    else none
                | _ => none
              else none
          | _ => none
        else none
    else (parseStrBodyF fuel rest).map (fun p => (c :: p.1, p.2))

/-- String-body parser with enough fuel for its own input. -/
def parseStrBody (l : List Char) : Option (List Char × List Char) :=
  parseStrBodyF l.length l

/-- Parse one JSON value of the shapes the writer emits: a string literal, a
run of digits, or `null`. -/
def parseVal (l : List Char) : Option (JVal × List Char) :=
  match l with
  | [] => none
  | c :: rest =>
    if c = '"' then (parseStrBody rest).map (fun p => (JVal.jstr (String.mk p.1), p.2))
    else if isDig c then (parseNat (c :: rest)).map (fun p => (JVal.jnum p.1, p.2))
    else
      match c :: rest with
      | 'n' :: 'u' :: 'l' :: 'l' :: rest2 => some (JVal.jnull, rest2)
      | _ => none

/-- Fuel-indexed parser for the members of an object, expecting the input
just after the opening brace and consuming through the closing brace. -/
def parseMembersF : Nat → List Char → Option (Dict × List Char)
  | _, '}' :: rest => some ([], rest)
  | fuel + 1, '"' :: rest =>
    match parseStrBody rest with
    | none => none
    | some (key, r1) =>
      match r1 with
      | ':' :: ' ' :: r2 =>
        match parseVal r2 with
        | none => none
        | some (v, r3) =>
          match r3 with
          | ',' :: ' ' :: r4 =>
            match parseMembersF fuel r4 with
            | none => none
            | some (kvs, r5) => some ((String.mk key, v) :: kvs, r5)
          | '}' :: r4 => some ([(String.mk key, v)], r4)
          | _ => none
      | _ => none
  | _, _ => none

/-- Parse one written line back into a record dict: an object followed by the
single newline terminator. -/
def parseRecordLine (s : String) : Option Dict :=
  match s.data with
  | '{' :: rest =>
    match parseMembersF rest.length rest with
    | some (kvs, ['\n']) => some kvs
    | _ => none
  | _ => none

/-! ### Dictionary lemmas -/

theorem lookupKey_setKey_eq (d : Dict) (k : String) (v : JVal) :
    lookupKey k (setKey d k v) = some v := by
  induction d with
  | nil => simp [setKey, lookupKey]
  | cons kv rest ih =>
    obtain ⟨k', v'⟩ := kv
    by_cases h : k' = k
    · simp [setKey, lookupKey, h]
    · simp [setKey, lookupKey, h, ih]

theorem lookupKey_setKey_ne (d : Dict) (k k' : String) (v : JVal) (h : k' ≠ k) :
    lookupKey k (setKey d k' v) = lookupKey k d := by
  induction d with
  | nil => simp [setKey, lookupKey, h]
  | cons kv rest ih =>
    obtain ⟨k₀, v₀⟩ := kv
    by_cases h0 : k₀ = k'
    · subst h0
      simp [setKey, lookupKey, h]
    · by_cases h1 : k₀ = k
      · subst h1
        simp [setKey, lookupKey, Ne.symm h, h0]
      · simp [setKey, lookupKey, h0, h1, ih]

/-! ### Decimal digits -/

theorem natDigs_length_pos (n : Nat) : 1 ≤ (natDigs n).length := by
  rw [natDigs_eq]
  split <;> simp

theorem isDig_hexDig (d : Nat) (h : d < 10) : isDig (hexDig d) = true := by
  interval_cases d <;> decide

theorem natDigs_all_dig (n : Nat) : ∀ c ∈ natDigs n, isDig c = true := by
  induction n using Nat.strong_induction_on with
  | _ n ih =>
    rw [natDigs_eq]
    split
    · next h => simpa using isDig_hexDig n h
    · next h =>
      intro c hc
      rw [List.mem_append] at hc
      rcases hc with hc | hc
      · exact ih (n / 10) (Nat.div_lt_self (by omega) (by omega)) c hc
      · simp only [List.mem_singleton] at hc
        subst hc
        exact isDig_hexDig (n % 10) (Nat.mod_lt _ (by omega))

theorem digVal_hexDig (d : Nat) (h : d < 10) : (hexDig d).toNat - 48 = d := by
  interval_cases d <;> decide

theorem natDigs_foldl (n : Nat) :
    ∀ a : Nat, (natDigs n).foldl (fun a c => a * 10 + (c.toNat - 48)) a
      = a * 10 ^ (natDigs n).length + n := by
  induction n using Nat.strong_induction_on with
  | _ n ih =>
    intro a
    rw [natDigs_eq]
    split
    · next h =>
      simp [List.foldl, digVal_hexDig n h]
    · next h =>
      rw [List.foldl_append, ih (n / 10) (Nat.div_lt_self (by omega) (by omega)) a]
      simp only [List.foldl, List.length_append, List.length_singleton]
      rw [digVal_hexDig (n % 10) (Nat.mod_lt _ (by omega))]
      rw [pow_succ]
      have := Nat.div_add_mod n 10
      ring_nf
      omega

theorem takeWhile_append_all {p : Char → Bool} {xs : List Char}
    (h : ∀ x ∈ xs, p x = true) (ys : List Char) :
    (xs ++ ys).takeWhile p = xs ++ ys.takeWhile p := by
  induction xs with
  | nil => simp
  | cons x xs ih =>
    simp only [List.cons_append, List.takeWhile_cons, h x (by simp), if_true]
    rw [ih (fun x hx => h x (by simp [hx]))]

/-- Heads off a run of digits: parsing the decimal rendering of `n` followed
by a non-digit yields `n` and the rest. -/
theorem parseNat_natDigs (n : Nat) (rest : List Char)
    (hrest : rest.takeWhile isDig = []) :
    parseNat (natDigs n ++ rest) = some (n, rest) := by
  unfold parseNat
  rw [takeWhile_append_all (natDigs_all_dig n) rest, hrest, List.append_nil]
  have hne : (natDigs n).isEmpty = false := by
    cases h : natDigs n with
    | nil => have := natDigs_length_pos n; simp [h] at this
    | cons a l => simp
  rw [if_neg (by simp [hne])]
  rw [natDigs_foldl n 0, List.drop_left]
  simp

/-! ### Character escapes round-trip -/

theorem char_code_facts (c : Char) :
    c.toNat < 0x110000 ∧ ¬ (0xd800 ≤ c.toNat ∧ c.toNat ≤ 0xdfff) := by
  have h := c.valid
  have he : c.toNat = c.val.toNat := rfl
  rw [he]
  rcases h with h | h
  · exact ⟨by omega, by omega⟩
  · exact ⟨by omega, by omega⟩

theorem hexVal_hexDig (d : Nat) (h : d < 16) : hexVal (hexDig d) = some d := by
  interval_cases d <;> decide

theorem hex4_uEsc (n : Nat) (h : n < 0x10000) :
    hex4 (hexDig (n / 4096 % 16)) (hexDig (n / 256 % 16))
      (hexDig (n / 16 % 16)) (hexDig (n % 16)) = some n := by
  simp only [hex4, hexVal_hexDig _ (Nat.mod_lt _ (show 0 < 16 by omega))]
  congr 1
  omega

/-- Consuming one `\uXXXX` escape for a non-surrogate code point. -/
theorem psbF_uEsc (f code : Nat) (tail : List Char)
    (h1 : code < 0xd800 ∨ 0xdfff < code) (h2 : code < 0x10000) :
    parseStrBodyF (f + 1) (uEsc code ++ tail) =
      (parseStrBodyF f tail).map (fun p => (Char.ofNat code :: p.1, p.2)) := by
  simp only [uEsc, List.cons_append, List.nil_append]
  simp [parseStrBodyF, hex4_uEsc code h2, h1]

/-- Consuming a surrogate-pair `\uXXXX\uXXXX` escape. -/
theorem psbF_surrogate (f hi lo : Nat) (tail : List Char)
    (hhi1 : 0xd800 ≤ hi) (hhi2 : hi < 0xdc00) (hlo1 : 0xdc00 ≤ lo) (hlo2 : lo < 0xe000) :
    parseStrBodyF (f + 1) (uEsc hi ++ (uEsc lo ++ tail)) =
      (parseStrBodyF f tail).map
        (fun p => (Char.ofNat (0x10000 + (hi - 0xd800) * 0x400 + (lo - 0xdc00)) :: p.1, p.2)) := by
  have hg1 : ¬ (hi < 0xd800 ∨ 0xdfff < hi) := by omega
  have hg3 : 0xdbff < lo ∧ lo < 0xe000 := by omega
  simp only [uEsc, List.cons_append, List.nil_append]
  simp [parseStrBodyF, hex4_uEsc hi (by omega), hex4_uEsc lo (by omega), hg1, hhi2, hg3]

theorem parseStrBodyF_escStr (s : List Char) :
    ∀ fuel rest, s.length < fuel →
      parseStrBodyF fuel (escStr s ++ '"' :: rest) = some (s, rest) := by
  induction s with
  | nil =>
    intro fuel rest hf
    obtain ⟨f, rfl⟩ : ∃ f, fuel = f + 1 := ⟨fuel - 1, by omega⟩
    simp [escStr, parseStrBodyF]
  | cons c cs ih =>
    intro fuel rest hf
    obtain ⟨f, rfl⟩ : ∃ f, fuel = f + 1 := ⟨fuel - 1, by omega⟩
    have hih := ih f rest (by simp at hf; omega)
    rw [show escStr (c :: cs) = escChar c ++ escStr cs from by simp [escStr]]
    by_cases h1 : c = '\\'
    · subst h1; simp [escChar, parseStrBodyF, hih]
    by_cases h2 : c = '"'
    · subst h2; simp [escChar, parseStrBodyF, hih]
    by_cases h3 : c = '\x08'
    · subst h3; simp [escChar, parseStrBodyF, hih]
    by_cases h4 : c = '\x0c'
    · subst h4; simp [escChar, parseStrBodyF, hih]
    by_cases h5 : c = '\n'
    · subst h5; simp [escChar, parseStrBodyF, hih]
    by_cases h6 : c = '\x0d'
    · subst h6; simp [escChar, parseStrBodyF, hih]
    by_cases h7 : c = '\t'
    · subst h7; simp [escChar, parseStrBodyF, hih]
    by_cases h8 : c.toNat < 0x20 ∨ 0x7e < c.toNat
    · have hcf := char_code_facts c
      by_cases h9 : c.toNat < 0x10000
      · have hv : c.toNat < 0xd800 ∨ 0xdfff < c.toNat := by omega
        simp only [escChar, if_neg h1, if_neg h2, if_neg h3, if_neg h4, if_neg h5,
          if_neg h6, if_neg h7, if_pos h8, if_pos h9, List.append_assoc]
        rw [psbF_uEsc f c.toNat _ hv h9, hih]
        simp [Char.ofNat_toNat]
      · have hdiv : (c.toNat - 0x10000) / 0x400 < 0x400 :=
          Nat.div_lt_of_lt_mul (by omega)
        have hmod : (c.toNat - 0x10000) % 0x400 < 0x400 :=
          Nat.mod_lt _ (by omega)
        have hcomb : 0x10000 +
            (0xd800 + (c.toNat - 0x10000) / 0x400 - 0xd800) * 0x400 +
            (0xdc00 + (c.toNat - 0x10000) % 0x400 - 0xdc00) = c.toNat := by
          have := Nat.div_add_mod (c.toNat - 0x10000) 0x400
          omega
        simp only [escChar, if_neg h1, if_neg h2, if_neg h3, if_neg h4, if_neg h5,
          if_neg h6, if_neg h7, if_pos h8, if_neg h9, List.append_assoc]
        rw [psbF_surrogate f _ _ _ (by omega) (by omega) (by omega) (by omega), hih]
        simp only [hcomb, Char.ofNat_toNat]
        simp
    · simp [escChar, h1, h2, h3, h4, h5, h6, h7, h8, parseStrBodyF, hih]

/-- Escaping at least preserves length. -/
theorem escStr_length_ge (s : List Char) : s.length ≤ (escStr s).length := by
  induction s with
  | nil => simp [escStr]
  | cons c cs ih =>
    have h : 1 ≤ (escChar c).length := by
      unfold escChar
      repeat' split
      all_goals simp [uEsc]
    simp only [escStr, List.flatMap_cons, List.length_append, List.length_cons] at *
    omega

/-- The self-fueled string-body parser inverts escaping. -/
theorem parseStrBody_escStr (s rest : List Char) :
    parseStrBody (escStr s ++ '"' :: rest) = some (s, rest) := by
  have h := escStr_length_ge s
  apply parseStrBodyF_escStr
  simp
  omega

theorem strMk_data (s : String) : String.mk s.data = s := rfl

theorem parseVal_serVal (v : JVal) (rest : List Char)
    (h : rest.takeWhile isDig = []) :
    parseVal (serVal v ++ rest) = some (v, rest) := by
  cases v with
  | jstr s =>
    simp only [serVal, serStr, List.cons_append, List.append_assoc,
      List.singleton_append]
    simp [parseVal, parseStrBody_escStr, strMk_data]
  | jnum n =>
    cases hnd : natDigs n with
    | nil =>
      have := natDigs_length_pos n
      rw [hnd] at this
      simp at this
    | cons c ds =>
      have hc : isDig c = true := natDigs_all_dig n c (by rw [hnd]; simp)
      have hne : ¬ c = '"' := by
        intro he
        rw [he] at hc
        exact absurd hc (by decide)
      have hin : serVal (JVal.jnum n) ++ rest = c :: (ds ++ rest) := by
        simp [serVal, hnd]
      rw [hin]
      simp only [parseVal, if_neg hne, if_pos hc]
      have : c :: (ds ++ rest) = natDigs n ++ rest := by simp [hnd]
      rw [this, parseNat_natDigs n rest h]
      simp
  | jnull =>
    have h1 : ¬ ('n' : Char) = '"' := by decide
    have h2 : isDig 'n' = false := by decide
    simp [serVal, parseVal, h1, h2]

theorem parseMembersF_serMembers (kvs : Dict) :
    ∀ fuel rest, kvs.length < fuel →
      parseMembersF fuel (serMembers kvs ++ rest) = some (kvs, rest) := by
  induction kvs with
  | nil =>
    intro fuel rest _
    simp [serMembers, parseMembersF]
  | cons kv tl ih =>
    intro fuel rest hf
    obtain ⟨f, rfl⟩ : ∃ f, fuel = f + 1 := ⟨fuel - 1, by omega⟩
    obtain ⟨k, v⟩ := kv
    cases tl with
    | nil =>
      have hin : serMembers [(k, v)] ++ rest =
          '"' :: (escStr k.data ++ '"' :: (':' :: ' ' :: (serVal v ++ '}' :: rest))) := by
        simp [serMembers, serStr]
      rw [hin]
      have hrest : ('}' :: rest).takeWhile isDig = [] := by
        simp [List.takeWhile_cons]
        decide
      simp [parseMembersF, parseStrBody_escStr, parseVal_serVal v _ hrest, strMk_data]
    | cons kv2 tl2 =>
      have hin : serMembers ((k, v) :: kv2 :: tl2) ++ rest =
          '"' :: (escStr k.data ++ '"' :: (':' :: ' ' :: (serVal v ++
            ',' :: ' ' :: (serMembers (kv2 :: tl2) ++ rest)))) := by
        simp [serMembers, serStr]
      rw [hin]
      have hrest : (',' :: ' ' :: (serMembers (kv2 :: tl2) ++ rest)).takeWhile isDig = [] := by
        simp [List.takeWhile_cons]
        decide
      have hihf := ih f rest (by simp at hf ⊢; omega)
      simp [parseMembersF, parseStrBody_escStr, parseVal_serVal v _ hrest, hihf, strMk_data]

theorem serVal_length_pos (v : JVal) : 1 ≤ (serVal v).length := by
  cases v with
  | jstr s => simp [serVal, serStr]
  | jnum n => simpa using natDigs_length_pos n
  | jnull => simp [serVal]

theorem serMembers_length_ge (kvs : Dict) : kvs.length + 1 ≤ (serMembers kvs).length := by
  induction kvs with
  | nil => simp [serMembers]
  | cons kv tl ih =>
    obtain ⟨k, v⟩ := kv
    cases tl with
    | nil =>
      have := serVal_length_pos v
      simp [serMembers, serStr]
      omega
    | cons kv2 tl2 =>
      have := serVal_length_pos v
      simp [serMembers, serStr] at ih ⊢
      omega

theorem sortKvs_sorted (d : Dict) : List.Sorted keyRel (sortKvs d) :=
  List.sorted_insertionSort keyRel d

theorem sortKvs_idem (d : Dict) : sortKvs (sortKvs d) = sortKvs d :=
  (sortKvs_sorted d).insertionSort_eq

theorem sortKvs_length (d : Dict) : (sortKvs d).length = d.length :=
  (List.perm_insertionSort keyRel d).length_eq

/-- Parsing a written line recovers the record, in sorted-key order. -/
theorem parseRecordLine_serializeLine (d : Dict) :
    parseRecordLine (serializeLine d) = some (sortKvs d) := by
  have hdata : (serializeLine d).data = '{' :: (serMembers (sortKvs d) ++ ['\n']) := by
    simp [serializeLine, serializeObj, serObjData, String.data_append]
  have hlen : (sortKvs d).length < (serMembers (sortKvs d) ++ ['\n']).length := by
    have := serMembers_length_ge (sortKvs d)
    simp only [List.length_append, List.length_singleton]
    omega
  simp only [parseRecordLine, hdata]
  rw [parseMembersF_serMembers (sortKvs d) _ ['\n'] hlen]
  simp

/-- Re-serializing the parsed record gives back the same line. -/
theorem serializeLine_sortKvs (d : Dict) :
    serializeLine (sortKvs d) = serializeLine d := by
  simp [serializeLine, serializeObj, serObjData, sortKvs_idem]

/-! ### Newlines -/

theorem pyReplaceF_newline (s : List Char) :
    ∀ fuel, s.length < fuel →
      pyReplaceF fuel ['\n'] [] s = s.filter (fun c => c != '\n') := by
  induction s with
  | nil =>
    intro fuel hf
    obtain ⟨f, rfl⟩ : ∃ f, fuel = f + 1 := ⟨fuel - 1, by omega⟩
    rfl
  | cons c rest ih =>
    intro fuel hf
    obtain ⟨f, rfl⟩ : ∃ f, fuel = f + 1 := ⟨fuel - 1, by omega⟩
    have hrest : rest.length < f := by simp at hf; omega
    by_cases hc : c = '\n'
    · subst hc
      rw [pyReplaceF, if_pos ⟨by simp, by simp [leadsWith]⟩]
      simpa using ih f hrest
    · rw [pyReplaceF, if_neg]
      · simpa [List.filter_cons, hc] using ih f hrest
      · simp [leadsWith, Ne.symm hc]

theorem pyReplaceL_newline (s : List Char) :
    pyReplaceL ['\n'] [] s = s.filter (fun c => c != '\n') :=
  pyReplaceF_newline s (s.length + 1) (by omega)

theorem nl_ne_hexDig (m : Nat) : ¬ ('\n' = hexDig m) := by
  by_cases h : m < 16
  · interval_cases m <;> decide
  · unfold hexDig
    rw [List.getD_eq_default]
    · decide
    · simp
      omega

theorem nl_not_mem_escChar (c : Char) : '\n' ∉ escChar c := by
  by_cases h1 : c = '\\'
  · subst h1; decide
  by_cases h2 : c = '"'
  · subst h2; decide
  by_cases h3 : c = '\x08'
  · subst h3; decide
  by_cases h4 : c = '\x0c'
  · subst h4; decide
  by_cases h5 : c = '\n'
  · subst h5; decide
  by_cases h6 : c = '\x0d'
  · subst h6; decide
  by_cases h7 : c = '\t'
  · subst h7; decide
  by_cases h8 : c.toNat < 0x20 ∨ 0x7e < c.toNat
  · by_cases h9 : c.toNat < 0x10000
    · simp only [escChar, if_neg h1, if_neg h2, if_neg h3, if_neg h4, if_neg h5,
        if_neg h6, if_neg h7, if_pos h8, if_pos h9]
      intro h
      simp [uEsc] at h
      rcases h with h | h | h | h <;> exact nl_ne_hexDig _ h
    · simp only [escChar, if_neg h1, if_neg h2, if_neg h3, if_neg h4, if_neg h5,
        if_neg h6, if_neg h7, if_pos h8, if_neg h9]
      intro h
      simp [uEsc] at h
      rcases h with h | h | h | h | h | h | h | h <;> exact nl_ne_hexDig _ h
  · simp only [escChar, if_neg h1, if_neg h2, if_neg h3, if_neg h4, if_neg h5,
      if_neg h6, if_neg h7, if_neg h8]
    intro h
    rw [List.mem_singleton] at h
    exact h5 h.symm

theorem nl_not_mem_escStr (s : List Char) : '\n' ∉ escStr s := by
  induction s with
  | nil => simp [escStr]
  | cons c cs ih =>
    simp only [escStr, List.flatMap_cons, List.mem_append] at *
    rintro (h | h)
    · exact nl_not_mem_escChar c h
    · exact ih h

theorem nl_not_mem_natDigs (n : Nat) : '\n' ∉ natDigs n := by
  intro h
  have := natDigs_all_dig n '\n' h
  exact absurd this (by decide)

theorem nl_not_mem_serVal (v : JVal) : '\n' ∉ serVal v := by
  cases v with
  | jstr s =>
    intro h
    simp [serVal, serStr] at h
    exact nl_not_mem_escStr s.data h
  | jnum n => exact nl_not_mem_natDigs n
  | jnull => decide

theorem nl_not_mem_serMembers (kvs : Dict) : '\n' ∉ serMembers kvs := by
  induction kvs with
  | nil => decide
  | cons kv tl ih =>
    obtain ⟨k, v⟩ := kv
    cases tl with
    | nil =>
      intro h
      simp [serMembers, serStr] at h
      rcases h with h | h
      · exact nl_not_mem_escStr k.data h
      · exact nl_not_mem_serVal v h
    | cons kv2 tl2 =>
      intro h
      simp [serMembers, serStr] at h
      rcases h with h | h | h
      · exact nl_not_mem_escStr k.data h
      · exact nl_not_mem_serVal v h
      · exact ih h

theorem nl_not_mem_serObjData (d : Dict) : '\n' ∉ serObjData d := by
  simp only [serObjData, List.mem_cons]
  rintro (h | h)
  · exact absurd h (by decide)
  · exact nl_not_mem_serMembers (sortKvs d) h

theorem serializeLine_data (d : Dict) :
    (serializeLine d).data = serObjData d ++ ['\n'] := by
  simp [serializeLine, serializeObj, String.data_append]

/-- Each written line contains exactly one newline character. -/
theorem serializeLine_count_nl (d : Dict) :
    ((serializeLine d).data.count '\n') = 1 := by
  rw [serializeLine_data, List.count_append]
  rw [List.count_eq_zero.2 (nl_not_mem_serObjData d)]
  simp

/-- The newline is the last character of the written line. -/
theorem serializeLine_getLast (d : Dict) :
    (serializeLine d).data.getLast? = some '\n' := by
  rw [serializeLine_data]
  exact List.getLast?_concat _

/-! ### Per-event and per-run lemmas -/

theorem nextRecord_seq (now : DateTime) (msg : String) (st : RecorderState) :
    lookupKey "msg_seq_no" (nextRecord now msg st) = some (JVal.jnum (st.msg_seq_no + 1)) := by
  unfold nextRecord
  rw [lookupKey_setKey_ne _ _ _ _ (by decide), lookupKey_setKey_ne _ _ _ _ (by decide),
    lookupKey_setKey_eq]

theorem nextRecord_ts (now : DateTime) (msg : String) (st : RecorderState) :
    lookupKey "ts_utc" (nextRecord now msg st) = some (JVal.jstr (formatTs now)) := by
  unfold nextRecord
  rw [lookupKey_setKey_ne _ _ _ _ (by decide), lookupKey_setKey_eq]

theorem nextRecord_payload (now : DateTime) (msg : String) (st : RecorderState) :
    lookupKey "websocket_msg" (nextRecord now msg st) =
      some (JVal.jstr (pyReplace msg "\n" "")) := by
  unfold nextRecord
  rw [lookupKey_setKey_eq]

theorem nextRecord_other (now : DateTime) (msg : String) (st : RecorderState)
    (k : String) (h1 : k ≠ "msg_seq_no") (h2 : k ≠ "ts_utc") (h3 : k ≠ "websocket_msg") :
    lookupKey k (nextRecord now msg st) = lookupKey k st.full_message := by
  unfold nextRecord
  rw [lookupKey_setKey_ne _ _ _ _ (Ne.symm h3), lookupKey_setKey_ne _ _ _ _ (Ne.symm h2),
    lookupKey_setKey_ne _ _ _ _ (Ne.symm h1)]

/-- Fields `received_message` never touches, in either branch. -/
theorem received_message_frame (now : DateTime) (msg : String) (st : RecorderState) :
    (received_message now msg st).1.url = st.url ∧
    (received_message now msg st).1.initial_msg_out = st.initial_msg_out ∧
    (received_message now msg st).1.data_file_lines = st.data_file_lines ∧
    (received_message now msg st).1.lines_counter = st.lines_counter ∧
    (received_message now msg st).1.ws_name = st.ws_name ∧
    (received_message now msg st).1.hostname = st.hostname ∧
    (received_message now msg st).1.data_dir = st.data_dir ∧
    (received_message now msg st).1.data_file.name = st.data_file.name ∧
    (received_message now msg st).1.msg_seq_no = st.msg_seq_no + 1 := by
  unfold received_message writeState crashState
  split <;> simp

/-- Fields `runEvents` never touches. -/
theorem runEvents_frame (es : List (DateTime × String)) :
    ∀ st : RecorderState,
      (runEvents st es).1.url = st.url ∧
      (runEvents st es).1.initial_msg_out = st.initial_msg_out ∧
      (runEvents st es).1.data_file_lines = st.data_file_lines ∧
      (runEvents st es).1.lines_counter = st.lines_counter ∧
      (runEvents st es).1.ws_name = st.ws_name ∧
      (runEvents st es).1.hostname = st.hostname ∧
      (runEvents st es).1.data_dir = st.data_dir ∧
      (runEvents st es).1.data_file.name = st.data_file.name := by
  induction es with
  | nil => intro st; simp [runEvents]
  | cons e es ih =>
    intro st
    obtain ⟨t, m⟩ := e
    have hstep := received_message_frame t m st
    unfold runEvents
    cases hrm : received_message t m st with
    | mk st' err =>
      rw [hrm] at hstep
      cases err with
      | none =>
        obtain ⟨a1, a2, a3, a4, a5, a6, a7, a8, _⟩ := hstep
        obtain ⟨b1, b2, b3, b4, b5, b6, b7, b8⟩ := ih st'
        exact ⟨b1.trans a1, b2.trans a2, b3.trans a3, b4.trans a4, b5.trans a5,
          b6.trans a6, b7.trans a7, b8.trans a8⟩
      | some e0 =>
        obtain ⟨a1, a2, a3, a4, a5, a6, a7, a8, _⟩ := hstep
        exact ⟨a1, a2, a3, a4, a5, a6, a7, a8⟩

/-- The sequence numbers stored in the records written so far. -/
def seqEntries (st : RecorderState) : List (Option JVal) :=
  st.recs.map (lookupKey "msg_seq_no")

/-- Along any run, if the ledger so far carries sequence numbers `1..n` and
the counter equals the ledger length, both properties persist (the counter
part only until a crash, which writes no record). -/
theorem runEvents_seq (es : List (DateTime × String)) :
    ∀ st : RecorderState, st.msg_seq_no = st.recs.length →
      seqEntries st =
        (List.range st.recs.length).map (fun k => some (JVal.jnum (k + 1))) →
      seqEntries (runEvents st es).1 =
        (List.range (runEvents st es).1.recs.length).map
          (fun k => some (JVal.jnum (k + 1))) := by
  induction es with
  | nil => intro st _ h2; simpa [runEvents] using h2
  | cons e es ih =>
    intro st h1 h2
    obtain ⟨t, m⟩ := e
    by_cases hc : pyTake (formatTs t) 10 = pyTake (pyBasename st.data_file.name) 10
    · -- matching prefix: one record is appended, the run continues
      rw [show runEvents st ((t, m) :: es) = runEvents (writeState t m st) es from by
        simp [runEvents, received_message, hc]]
      apply ih
      · simp [writeState, h1]
      · have hnew : seqEntries (writeState t m st) =
            seqEntries st ++ [some (JVal.jnum (st.msg_seq_no + 1))] := by
          simp [writeState, seqEntries, nextRecord_seq]
        rw [hnew, h2, h1]
        simp [writeState, List.range_succ]
    · -- crash: no record is appended, the run stops
      rw [show runEvents st ((t, m) :: es) = (crashState t m st, some typeErrMsg) from by
        simp [runEvents, received_message, hc]]
      simpa [crashState, seqEntries] using h2

/-- Along any run, a key other than the three per-record keys keeps its
template value, and every record ever written carries that same value. -/
theorem runEvents_const_keys (es : List (DateTime × String)) :
    ∀ (st : RecorderState) (k : String),
      k ≠ "msg_seq_no" → k ≠ "ts_utc" → k ≠ "websocket_msg" →
      lookupKey k (runEvents st es).1.full_message = lookupKey k st.full_message ∧
      ∀ r ∈ (runEvents st es).1.recs,
        r ∈ st.recs ∨ lookupKey k r = lookupKey k st.full_message := by
  induction es with
  | nil =>
    intro st k _ _ _
    exact ⟨rfl, fun r hr => Or.inl hr⟩
  | cons e es ih =>
    intro st k h1 h2 h3
    obtain ⟨t, m⟩ := e
    have hother := nextRecord_other t m st k h1 h2 h3
    by_cases hc : pyTake (formatTs t) 10 = pyTake (pyBasename st.data_file.name) 10
    · rw [show runEvents st ((t, m) :: es) = runEvents (writeState t m st) es from by
        simp [runEvents, received_message, hc]]
      obtain ⟨hfm, hrecs⟩ := ih (writeState t m st) k h1 h2 h3
      have hwfm : (writeState t m st).full_message = nextRecord t m st := rfl
      constructor
      · rw [hfm, hwfm, hother]
      · intro r hr
        rcases hrecs r hr with hmem | heq
        · have : r ∈ st.recs ∨ r = nextRecord t m st := by
            simpa [writeState] using hmem
          rcases this with hmem2 | rfl
          · exact Or.inl hmem2
          · exact Or.inr hother
        · rw [hwfm, hother] at heq
          exact Or.inr heq
    · rw [show runEvents st ((t, m) :: es) = (crashState t m st, some typeErrMsg) from by
        simp [runEvents, received_message, hc]]
      exact ⟨by simpa [crashState] using hother, fun r hr => Or.inl hr⟩

/-- `received_message` neither reads nor depends on `data_file_lines`. -/
theorem received_message_dfl (now : DateTime) (msg : String) (st : RecorderState) (b : Nat) :
    received_message now msg { st with data_file_lines := b } =
      ({ (received_message now msg st).1 with data_file_lines := b },
        (received_message now msg st).2) := by
  unfold received_message
  by_cases hc : pyTake (formatTs now) 10 = pyTake (pyBasename st.data_file.name) 10
  · simp only [if_pos hc]
    rfl
  · simp only [if_neg hc]
    rfl

/-- Runs from states differing only in `data_file_lines` stay in lockstep. -/
theorem runEvents_dfl (es : List (DateTime × String)) :
    ∀ (st : RecorderState) (b : Nat),
      runEvents { st with data_file_lines := b } es =
        ({ (runEvents st es).1 with data_file_lines := b }, (runEvents st es).2) := by
  induction es with
  | nil => intro st b; rfl
  | cons e es ih =>
    intro st b
    obtain ⟨t, m⟩ := e
    unfold runEvents
    rw [received_message_dfl]
    cases hrm : received_message t m st with
    | mk st' err =>
      cases err with
      | none => exact ih st' b
      | some e0 => rfl

/-- The generated name carries the `.open` marker as a suffix. -/
theorem open_suffix_generate (dd wsn hn : String) (now : DateTime) :
    ".open".data <:+ (generate_filename dd wsn hn now).data := by
  refine ⟨(dd ++ "/" ++ formatDate now ++ "_" ++ wsn ++ "_" ++ hn ++ ".json").data, ?_⟩
  simp only [generate_filename, String.data_append, List.append_assoc]
  rfl

/-- Everything in the recorder state except `data_file_lines`: the observable
behavior of a session (file, records, counter, template, configuration). -/
def coreView (st : RecorderState) :
    String × List String × Nat × String × String × String × FileState × Nat ×
      Dict × List Dict :=
  (st.url, st.initial_msg_out, st.lines_counter, st.ws_name, st.hostname,
   st.data_dir, st.data_file, st.msg_seq_no, st.full_message, st.recs)

/-- The date part of the filename as the spec words it: the current date
formatted as `YYYY-MM-DD` (four-digit zero-padded year, two-digit zero-padded
month and day). -/
def claimDatePart (t : DateTime) : String :=
  String.mk (padNum 4 t.year) ++ "-" ++ String.mk (padNum 2 t.month) ++ "-" ++
    String.mk (padNum 2 t.day)

/-- The path shape the spec promises for filename generation:
`<dataDir>/<YYYY-MM-DD>_<endpointName>_<hostId>.json.open`. -/
def claimPath (dataDir date endpointName hostId : String) : String :=
  dataDir ++ "/" ++ date ++ "_" ++ endpointName ++ "_" ++ hostId ++ ".json.open"

theorem formatDate_eq_claimDatePart (t : DateTime) :
    formatDate t = claimDatePart t := by
  apply String.ext
  simp [formatDate, claimDatePart, String.data_append]

/-! ### Claim theorems -/

/-- A recorder constructed late on 2021-01-01 with an empty `extra_data`. -/
def c1Init : RecorderState :=
  init "/data" "wss://feed.example.org" [] 1000 "host1" "wsx" 30 [] 4242
    ⟨2021, 1, 1, 23, 59, 0, 0⟩

/-- Two events: one before midnight, one just after (crossing the day
boundary). -/
def c1Events : List (DateTime × String) :=
  [(⟨2021, 1, 1, 23, 59, 30, 0⟩, "a"), (⟨2021, 1, 2, 0, 0, 5, 0⟩, "b")]

/-- C1: a session crossing one day boundary does NOT produce two files.  The
first event is recorded, but the boundary-crossing event makes
`received_message` raise `TypeError` from `current_path.replace(".open")`
(one argument instead of two), after closing the data file and before any
rename, reopen, or write: the session ends with its single original file,
still named with the `.open` suffix, containing only the pre-boundary
record; the post-boundary record is lost. -/
theorem c1_rotation_raises_typeerror :
    (runEvents c1Init c1Events).2 = some typeErrMsg ∧
    (runEvents c1Init c1Events).1.data_file.name =
      "/data/2021-01-01_wsx_host1.json.open" ∧
    (runEvents c1Init c1Events).1.data_file.isOpen = false ∧
    (runEvents c1Init c1Events).1.data_file.lines.length = 1 ∧
    (runEvents c1Init c1Events).1.recs.length = 1 := by
  decide

/-- C2: the `k`-th record written in a session carries sequence number `k`
(the ledger of written sequence numbers is exactly `1, 2, ..., n`), the
counter increases by exactly one on every delivered event in both branches of
`received_message`, and `closed` does not touch it. -/
theorem c2_sequence_numbers (dd url : String) (imo : List String) (dfl : Nat)
    (hn wsn : String) (hb : Nat) (ex : Dict) (pid : Nat) (now0 : DateTime)
    (es : List (DateTime × String)) :
    seqEntries (runEvents (init dd url imo dfl hn wsn hb ex pid now0) es).1 =
      (List.range
          (runEvents (init dd url imo dfl hn wsn hb ex pid now0) es).1.recs.length).map
        (fun k => some (JVal.jnum (k + 1))) ∧
    (∀ (now : DateTime) (msg : String) (st : RecorderState),
      (received_message now msg st).1.msg_seq_no = st.msg_seq_no + 1) ∧
    (∀ (code : Nat) (reason : String) (st : RecorderState),
      (closed code reason st).msg_seq_no = st.msg_seq_no) := by
  refine ⟨?_, ?_, ?_⟩
  · exact runEvents_seq es (init dd url imo dfl hn wsn hb ex pid now0) rfl rfl
  · intro now msg st
    exact (received_message_frame now msg st).2.2.2.2.2.2.2.2
  · intro code reason st
    rfl

/-- C3: the branch taken by `received_message` is decided exactly by string
equality of the first ten characters of the fresh timestamp and the first ten
characters of the open file's literal basename: on a match one serialized
record is appended to the current file (same name); on a mismatch the
rotation branch runs, which closes the file and then raises `TypeError` (its
`str.replace` call is missing the replacement argument), so the file keeps
its name and its contents. -/
theorem c3_rotation_decision (now : DateTime) (msg : String) (st : RecorderState) :
    received_message now msg st =
      (if pyTake (formatTs now) 10 = pyTake (pyBasename st.data_file.name) 10
        then (writeState now msg st, none)
        else (crashState now msg st, some typeErrMsg)) ∧
    (writeState now msg st).data_file.name = st.data_file.name ∧
    (writeState now msg st).data_file.lines =
      st.data_file.lines ++ [serializeLine (nextRecord now msg st)] ∧
    (crashState now msg st).data_file.name = st.data_file.name ∧
    (crashState now msg st).data_file.lines = st.data_file.lines :=
  ⟨rfl, rfl, rfl, rfl, rfl⟩

/-- C4: the recorded payload is the raw message text with every newline
character removed (replaced by nothing), and the written record line contains
no newline except the single trailing terminator. -/
theorem c4_payload_newline_stripped (now : DateTime) (msg : String) (st : RecorderState) :
    lookupKey "websocket_msg" (nextRecord now msg st) =
      some (JVal.jstr (pyReplace msg "\n" "")) ∧
    (pyReplace msg "\n" "").data = msg.data.filter (fun c => c != '\n') ∧
    '\n' ∉ (pyReplace msg "\n" "").data ∧
    (serializeLine (nextRecord now msg st)).data.count '\n' = 1 ∧
    (serializeLine (nextRecord now msg st)).data.getLast? = some '\n' := by
  refine ⟨nextRecord_payload now msg st, pyReplaceL_newline msg.data, ?_,
    serializeLine_count_nl _, serializeLine_getLast _⟩
  intro hmem
  have h2 := pyReplaceL_newline msg.data
  change '\n' ∈ pyReplaceL ['\n'] [] msg.data at hmem
  rw [h2] at hmem
  simp at hmem

/-- C5: closing the connection closes the file handle and nothing else: the
file keeps its name (the `.open` suffix stays), its contents, and the
counter, template, and record ledger are untouched. -/
theorem c5_close_leaves_open_suffix (dd url : String) (imo : List String)
    (dfl : Nat) (hn wsn : String) (hb : Nat) (ex : Dict) (pid : Nat)
    (now0 : DateTime) (es : List (DateTime × String)) (code : Nat) (reason : String) :
    (closed code reason
        (runEvents (init dd url imo dfl hn wsn hb ex pid now0) es).1).data_file.name =
      (runEvents (init dd url imo dfl hn wsn hb ex pid now0) es).1.data_file.name ∧
    ".open".data <:+
      (closed code reason
        (runEvents (init dd url imo dfl hn wsn hb ex pid now0) es).1).data_file.name.data ∧
    (closed code reason
        (runEvents (init dd url imo dfl hn wsn hb ex pid now0) es).1).data_file.lines =
      (runEvents (init dd url imo dfl hn wsn hb ex pid now0) es).1.data_file.lines ∧
    (closed code reason
        (runEvents (init dd url imo dfl hn wsn hb ex pid now0) es).1).data_file.isOpen =
      false ∧
    (closed code reason
        (runEvents (init dd url imo dfl hn wsn hb ex pid now0) es).1).msg_seq_no =
      (runEvents (init dd url imo dfl hn wsn hb ex pid now0) es).1.msg_seq_no ∧
    (closed code reason
        (runEvents (init dd url imo dfl hn wsn hb ex pid now0) es).1).full_message =
      (runEvents (init dd url imo dfl hn wsn hb ex pid now0) es).1.full_message ∧
    (closed code reason
        (runEvents (init dd url imo dfl hn wsn hb ex pid now0) es).1).recs =
      (runEvents (init dd url imo dfl hn wsn hb ex pid now0) es).1.recs ∧
    (closed code reason
        (runEvents (init dd url imo dfl hn wsn hb ex pid now0) es).1).lines_counter =
      (runEvents (init dd url imo dfl hn wsn hb ex pid now0) es).1.lines_counter := by
  refine ⟨rfl, ?_, rfl, rfl, rfl, rfl, rfl, rfl⟩
  have h := (runEvents_frame es (init dd url imo dfl hn wsn hb ex pid now0)).2.2.2.2.2.2.2
  show ".open".data <:+
    (runEvents (init dd url imo dfl hn wsn hb ex pid now0) es).1.data_file.name.data
  rw [h]
  exact open_suffix_generate dd wsn hn now0

/-- C6: every written line is the sorted-key serialization of the record
followed by one newline; parsing it back yields the record (in sorted key
order), whose re-serialization is the very same line, byte for byte. -/
theorem c6_line_roundtrip (now : DateTime) (msg : String) (st : RecorderState) :
    parseRecordLine (serializeLine (nextRecord now msg st)) =
      some (sortKvs (nextRecord now msg st)) ∧
    serializeLine (sortKvs (nextRecord now msg st)) =
      serializeLine (nextRecord now msg st) ∧
    List.Sorted keyRel (sortKvs (nextRecord now msg st)) ∧
    (serializeLine (nextRecord now msg st)).data.count '\n' = 1 ∧
    (serializeLine (nextRecord now msg st)).data.getLast? = some '\n' ∧
    (writeState now msg st).data_file.lines =
      st.data_file.lines ++ [serializeLine (nextRecord now msg st)] :=
  ⟨parseRecordLine_serializeLine _, serializeLine_sortKvs _, sortKvs_sorted _,
    serializeLine_count_nl _, serializeLine_getLast _, rfl⟩

/-- C7: along any session, a record field other than the three per-record
keys equals its value in the construction-time template, in every record
written. -/
theorem c7_constant_fields (dd url : String) (imo : List String) (dfl : Nat)
    (hn wsn : String) (hb : Nat) (ex : Dict) (pid : Nat) (now0 : DateTime)
    (es : List (DateTime × String)) :
    ∀ r ∈ (runEvents (init dd url imo dfl hn wsn hb ex pid now0) es).1.recs,
      ∀ k : String, k ≠ "msg_seq_no" → k ≠ "ts_utc" → k ≠ "websocket_msg" →
        lookupKey k r =
          lookupKey k (init dd url imo dfl hn wsn hb ex pid now0).full_message := by
  intro r hr k h1 h2 h3
  rcases (runEvents_const_keys es (init dd url imo dfl hn wsn hb ex pid now0)
      k h1 h2 h3).2 r hr with hmem | heq
  · simp [init] at hmem
  · exact heq

/-- A concrete session with a caller-supplied extra field. -/
def c7Init : RecorderState :=
  init "/d" "wss://e" [] 5 "hostA" "feed" 20 [("source", JVal.jstr "caller")] 7
    ⟨2021, 3, 4, 5, 6, 7, 8⟩

def c7Events : List (DateTime × String) := [(⟨2021, 3, 4, 6, 0, 0, 0⟩, "m1")]

/-- The single record the session writes. -/
def c7Rec : Dict := (runEvents c7Init c7Events).1.recs.getD 0 []

/-- Witness for C7 at a concrete run, record and key. -/
theorem c7_constant_fields_witness :
    lookupKey "url" c7Rec = lookupKey "url" c7Init.full_message := by
  exact c7_constant_fields "/d" "wss://e" [] 5 "hostA" "feed" 20
    [("source", JVal.jstr "caller")] 7 ⟨2021, 3, 4, 5, 6, 7, 8⟩ c7Events
    c7Rec (by decide) "url" (by decide) (by decide) (by decide)

/-- C8: filename generation produces exactly
`<dataDir>/<YYYY-MM-DD>_<endpointName>_<hostId>.json.open` for the current
date; the name is fixed at construction and never changes during a session
(rotation, the only renaming path, always raises before renaming). -/
theorem c8_filename_generation (dd url : String) (imo : List String) (dfl : Nat)
    (hn wsn : String) (hb : Nat) (ex : Dict) (pid : Nat) (now0 : DateTime)
    (es : List (DateTime × String)) :
    generate_filename dd wsn hn now0 = claimPath dd (claimDatePart now0) wsn hn ∧
    (init dd url imo dfl hn wsn hb ex pid now0).data_file.name =
      generate_filename dd wsn hn now0 ∧
    (runEvents (init dd url imo dfl hn wsn hb ex pid now0) es).1.data_file.name =
      generate_filename dd wsn hn now0 := by
  refine ⟨?_, rfl, ?_⟩
  · simp only [generate_filename, claimPath, formatDate_eq_claimDatePart]
  · exact (runEvents_frame es (init dd url imo dfl hn wsn hb ex pid now0)).2.2.2.2.2.2.2

/-- C9: the recorded output is independent of `data_file_lines`: two sessions
identical except for that value produce identical observable states (file,
lines, records, counter, template) and identical errors, and the internal
`lines_counter` stays `0` forever. -/
theorem c9_data_file_lines_noninterference (dd url : String) (imo : List String)
    (a b : Nat) (hn wsn : String) (hb : Nat) (ex : Dict) (pid : Nat)
    (now0 : DateTime) (es : List (DateTime × String)) :
    coreView (runEvents (init dd url imo a hn wsn hb ex pid now0) es).1 =
      coreView (runEvents (init dd url imo b hn wsn hb ex pid now0) es).1 ∧
    (runEvents (init dd url imo a hn wsn hb ex pid now0) es).2 =
      (runEvents (init dd url imo b hn wsn hb ex pid now0) es).2 ∧
    (runEvents (init dd url imo a hn wsn hb ex pid now0) es).1.lines_counter = 0 := by
  have hinit : init dd url imo b hn wsn hb ex pid now0 =
      { init dd url imo a hn wsn hb ex pid now0 with data_file_lines := b } := rfl
  have h := runEvents_dfl es (init dd url imo a hn wsn hb ex pid now0) b
  refine ⟨?_, ?_, ?_⟩
  · rw [hinit, h]
    rfl
  · rw [hinit, h]
  · exact (runEvents_frame es (init dd url imo a hn wsn hb ex pid now0)).2.2.2.1

/-- C10: on every event the three per-record keys are unconditionally
overwritten with the values of the current cycle, whatever the template
holds; a colliding caller-supplied extra value is visible in the template
only at construction time. -/
theorem c10_per_record_overwrite (now : DateTime) (msg : String) (st : RecorderState) :
    lookupKey "msg_seq_no" (nextRecord now msg st) = some (JVal.jnum (st.msg_seq_no + 1)) ∧
    lookupKey "ts_utc" (nextRecord now msg st) = some (JVal.jstr (formatTs now)) ∧
    lookupKey "websocket_msg" (nextRecord now msg st) =
      some (JVal.jstr (pyReplace msg "\n" "")) ∧
    (writeState now msg st).recs = st.recs ++ [nextRecord now msg st] ∧
    (writeState now msg st).full_message = nextRecord now msg st ∧
    (crashState now msg st).full_message = nextRecord now msg st ∧
    (∀ (dd url : String) (imo : List String) (dfl : Nat) (hn wsn : String)
        (hb : Nat) (pid : Nat) (now0 : DateTime) (v : JVal),
      lookupKey "ts_utc"
        (init dd url imo dfl hn wsn hb [("ts_utc", v)] pid now0).full_message = some v) := by
  refine ⟨nextRecord_seq now msg st, nextRecord_ts now msg st, nextRecord_payload now msg st,
    rfl, rfl, rfl, ?_⟩
  intro dd url imo dfl hn wsn hb pid now0 v
  show lookupKey "ts_utc"
    (setKey (templateLiteral url hn wsn pid now0) "ts_utc" v) = some v
  exact lookupKey_setKey_eq _ _ _
